import Mathlib

/-!
Verification of the `miband4-gtk` protocol core (`src/band.rs`, `src/bluez.rs`,
`src/utils.rs`) against its natural-language specification.

Bytes are modelled as `Nat` values in `0..256`; byte strings as `List Nat`.
Each Rust function of the protocol core is translated into an executable Lean
definition; the asynchronous I/O boundary (D-Bus proxies, characteristic
reads/writes, notification sockets) is made explicit by passing the bytes that
were read as arguments and returning the bytes that would be written.
A Rust slice-indexing panic (out-of-bounds access) is modelled by an outer
`Option` (`none` = panic) on the functions that can index out of bounds.
-/

namespace MiBand4

/-- Stand-in for `zbus::Error`: a transport/IPC error, identified by a code. -/
structure ZbusError where
  code : Nat
deriving DecidableEq, Repr

/-- The error type `BandError` from `src/band.rs`. The payload-carrying
variants keep a stand-in payload. -/
inductive BandError where
  | dbusError (e : ZbusError)
  | ioError (code : Nat)
  | storeError (code : Nat)
  | missingServicesOrChars
  | notInitialized
  | invalidTime
  | utf8Error
  | requiresAuth
  | invalidAuthKey
  | invalidLockPin
deriving DecidableEq, Repr

/-- The ten resolved GATT characteristic handles (`BandChars` in
`src/band.rs`). D-Bus proxies are opaque handles; each is a `Nat` id. -/
structure BandChars where
  battery : Nat
  steps : Nat
  firm_rev : Nat
  time : Nat
  auth : Nat
  config : Nat
  settings : Nat
  alert : Nat
  chunked_transfer : Nat
  music_notifs : Nat
deriving DecidableEq, Repr, Inhabited

/-- The mutable state of a `MiBand` client (`src/band.rs`): the
`authenticated` flag and the optionally-cached characteristic set. -/
structure MiBandState where
  authenticated : Bool
  chars : Option BandChars
deriving DecidableEq, Repr

/-- A date-time as assembled by `chrono::Local.with_ymd_and_hms` from the
seven raw bytes of a band timestamp. -/
structure BandDateTime where
  year : Nat
  month : Nat
  day : Nat
  hour : Nat
  minute : Nat
  second : Nat
deriving DecidableEq, Repr

/-- Gregorian leap-year rule, as used by `chrono`. -/
def isLeapYear (y : Nat) : Bool :=
  (y % 4 == 0 && y % 100 != 0) || y % 400 == 0

/-- Number of days of a month (1-12) in year `y`; 0 for an invalid month. -/
def daysInMonth (y m : Nat) : Nat :=
  match m with
  | 1 => 31 | 2 => if isLeapYear y then 29 else 28
  | 3 => 31 | 4 => 30 | 5 => 31 | 6 => 30
  | 7 => 31 | 8 => 31 | 9 => 30 | 10 => 31
  | 11 => 30 | 12 => 31
  | _ => 0

/-- Validity of calendar fields: `chrono`'s
`Local.with_ymd_and_hms(..)` yields a single value exactly when the fields
form a valid proleptic-Gregorian calendar date and a valid wall-clock time.
(The timezone-dependent DST gap/fold cases of the `Local` timezone are not
modelled: times are treated as always unambiguous.) -/
def validDateTime (t : BandDateTime) : Bool :=
  1 ≤ t.month && t.month ≤ 12 &&
  1 ≤ t.day && t.day ≤ daysInMonth t.year t.month &&
  t.hour < 24 && t.minute < 60 && t.second < 60

/-- The seven timestamp fields as read by `parse_time` in `src/band.rs`:
little-endian two-byte year, then month, day, hour, minute, second. -/
def readTimeFields (value : List Nat) : BandDateTime :=
  { year := Nat.lor (value.getD 0 0) (Nat.shiftLeft (value.getD 1 0) 8)
    month := value.getD 2 0
    day := value.getD 3 0
    hour := value.getD 4 0
    minute := value.getD 5 0
    second := value.getD 6 0 }

/-- `parse_time` from `src/band.rs`: parse a time out of a byte array.
Inputs shorter than 7 bytes yield `none`; otherwise the fields are read and
validated through `Local.with_ymd_and_hms` (see `validDateTime`). -/
def parse_time (value : List Nat) : Option BandDateTime :=
  if value.length < 7 then none
  else
    let t := readTimeFields value
    if validDateTime t then some t else none

/-!
AES-128 in CBC mode with PKCS#7 padding, as performed by
`encrypt_value` in `src/utils.rs` through the RustCrypto `aes`/`cbc` crates.
The crates implement FIPS-197 (AES) and NIST SP 800-38A (CBC); the
definitions below implement those standards over byte lists, state bytes
kept in input order (state s[r][c] = byte r + 4c).
-/

/-- The Rijndael S-box (FIPS-197 Figure 7), as a 256-entry lookup table. -/
def sbox : List Nat :=
[99, 124, 119, 123, 242, 107, 111, 197, 48, 1, 103, 43, 254, 215, 171, 118,
 202, 130, 201, 125, 250, 89, 71, 240, 173, 212, 162, 175, 156, 164, 114, 192,
 183, 253, 147, 38, 54, 63, 247, 204, 52, 165, 229, 241, 113, 216, 49, 21,
 4, 199, 35, 195, 24, 150, 5, 154, 7, 18, 128, 226, 235, 39, 178, 117,
 9, 131, 44, 26, 27, 110, 90, 160, 82, 59, 214, 179, 41, 227, 47, 132,
 83, 209, 0, 237, 32, 252, 177, 91, 106, 203, 190, 57, 74, 76, 88, 207,
 208, 239, 170, 251, 67, 77, 51, 133, 69, 249, 2, 127, 80, 60, 159, 168,
 81, 163, 64, 143, 146, 157, 56, 245, 188, 182, 218, 33, 16, 255, 243, 210,
 205, 12, 19, 236, 95, 151, 68, 23, 196, 167, 126, 61, 100, 93, 25, 115,
 96, 129, 79, 220, 34, 42, 144, 136, 70, 238, 184, 20, 222, 94, 11, 219,
 224, 50, 58, 10, 73, 6, 36, 92, 194, 211, 172, 98, 145, 149, 228, 121,
 231, 200, 55, 109, 141, 213, 78, 169, 108, 86, 244, 234, 101, 122, 174, 8,
 186, 120, 37, 46, 28, 166, 180, 198, 232, 221, 116, 31, 75, 189, 139, 138,
 112, 62, 181, 102, 72, 3, 246, 14, 97, 53, 87, 185, 134, 193, 29, 158,
 225, 248, 152, 17, 105, 217, 142, 148, 155, 30, 135, 233, 206, 85, 40, 223,
 140, 161, 137, 13, 191, 230, 66, 104, 65, 153, 45, 15, 176, 84, 187, 22]

/-- S-box lookup for a byte. -/
def sboxAt (n : Nat) : Nat := sbox.getD n 0

/-- Multiplication by `x` in GF(2^8) modulo the Rijndael polynomial 0x11b. -/
def xtime (b : Nat) : Nat :=
  Nat.xor (2 * b % 256) (if 128 ≤ b then 0x1b else 0)

/-- Multiplication by 3 in GF(2^8). -/
def gmul3 (b : Nat) : Nat := Nat.xor (xtime b) b

/-- SubBytes: apply the S-box to every state byte. -/
def subBytes (s : List Nat) : List Nat := s.map sboxAt

/-- ShiftRows on a 16-byte state in input order: row r (bytes r, r+4, r+8,
r+12) is rotated left by r. -/
def shiftRows (s : List Nat) : List Nat :=
  [s.getD 0 0, s.getD 5 0, s.getD 10 0, s.getD 15 0,
   s.getD 4 0, s.getD 9 0, s.getD 14 0, s.getD 3 0,
   s.getD 8 0, s.getD 13 0, s.getD 2 0, s.getD 7 0,
   s.getD 12 0, s.getD 1 0, s.getD 6 0, s.getD 11 0]

/-- MixColumns on one column. -/
def mixCol (a b c d : Nat) : List Nat :=
  [Nat.xor (Nat.xor (xtime a) (gmul3 b)) (Nat.xor c d),
   Nat.xor (Nat.xor a (xtime b)) (Nat.xor (gmul3 c) d),
   Nat.xor (Nat.xor a b) (Nat.xor (xtime c) (gmul3 d)),
   Nat.xor (Nat.xor (gmul3 a) b) (Nat.xor c (xtime d))]

/-- MixColumns on the 16-byte state (columns are consecutive 4-byte runs). -/
def mixColumns (s : List Nat) : List Nat :=
  mixCol (s.getD 0 0) (s.getD 1 0) (s.getD 2 0) (s.getD 3 0) ++
  mixCol (s.getD 4 0) (s.getD 5 0) (s.getD 6 0) (s.getD 7 0) ++
  mixCol (s.getD 8 0) (s.getD 9 0) (s.getD 10 0) (s.getD 11 0) ++
  mixCol (s.getD 12 0) (s.getD 13 0) (s.getD 14 0) (s.getD 15 0)

/-- AddRoundKey: xor the 16-byte state with a 16-byte round key. -/
def addRoundKey (s k : List Nat) : List Nat :=
  (List.range 16).map fun i => Nat.xor (s.getD i 0) (k.getD i 0)

/-- The AES round constants. -/
def rcon : List Nat := [0x01, 0x02, 0x04, 0x08, 0x10, 0x20, 0x40, 0x80, 0x1b, 0x36]

/-- RotWord of the key schedule. -/
def rotWord (w : List Nat) : List Nat := w.drop 1 ++ w.take 1

/-- SubWord of the key schedule. -/
def subWord (w : List Nat) : List Nat := w.map sboxAt

/-- AES-128 key expansion (FIPS-197 §5.2): the 44 four-byte words. -/
def keyExpansionWords (key : List Nat) : List (List Nat) :=
  let init := [key.take 4, (key.drop 4).take 4, (key.drop 8).take 4,
               (key.drop 12).take 4]
  (List.range 40).foldl (fun ws j =>
    let i := j + 4
    let prev := ws.getD (i - 1) []
    let back4 := ws.getD (i - 4) []
    let temp :=
      if i % 4 = 0 then
        List.zipWith Nat.xor (subWord (rotWord prev))
          [rcon.getD (i / 4 - 1) 0, 0, 0, 0]
      else prev
    ws ++ [List.zipWith Nat.xor back4 temp]) init

/-- Round key `r`: words 4r..4r+3 of the expanded key, concatenated. -/
def roundKey (ws : List (List Nat)) (r : Nat) : List Nat :=
  ws.getD (4 * r) [] ++ ws.getD (4 * r + 1) [] ++
  ws.getD (4 * r + 2) [] ++ ws.getD (4 * r + 3) []

/-- AES-128 block encryption (FIPS-197 §5.1) of a 16-byte block. -/
def aes128EncryptBlock (key block : List Nat) : List Nat :=
  let ws := keyExpansionWords key
  let s0 := addRoundKey block (roundKey ws 0)
  let s9 := (List.range 9).foldl
    (fun s r => addRoundKey (mixColumns (shiftRows (subBytes s))) (roundKey ws (r + 1)))
    s0
  addRoundKey (shiftRows (subBytes s9)) (roundKey ws 10)

/-- PKCS#7 padding to a 16-byte block boundary (always appends at least one
byte, each equal to the pad length). -/
def pkcs7Pad (v : List Nat) : List Nat :=
  let p := 16 - v.length % 16
  v ++ List.replicate p p

/-- CBC-mode AES-128 encryption (NIST SP 800-38A §6.2) of a byte list whose
length is a multiple of 16: each plaintext block is xored with the previous
ciphertext block (initially the IV) before block encryption. -/
def cbcEncryptAes128 (key iv data : List Nat) : List Nat :=
  if data = [] then []
  else
    let c := aes128EncryptBlock key (List.zipWith Nat.xor (data.take 16) iv)
    c ++ cbcEncryptAes128 key c (data.drop 16)
termination_by data.length
decreasing_by
  simp only [List.length_drop]
  cases data with
  | nil => simp_all
  | cons a l => simp; omega

/-- `encrypt_value` from `src/utils.rs`: AES-128-CBC encryption of `value`
under `key` with a zero IV and PKCS#7 padding, written into a fixed 48-byte
buffer that is returned whole (ciphertext followed by the untouched zero
bytes of the buffer). `none` models the library error when the padded
input does not fit the 48-byte buffer. The Rust code panics when
`key` is not exactly 16 bytes; the model is only used under a 16-byte-key
hypothesis. -/
def encrypt_value (key value : List Nat) : Option (List Nat) :=
  let padded := pkcs7Pad value
  if 48 < padded.length then none
  else some (cbcEncryptAes128 key (List.replicate 16 0) padded ++
             List.replicate (48 - padded.length) 0)

deriving instance DecidableEq for Except

/-- UTF-8 encoding of one character (RFC 3629), as produced by Rust
`str::bytes()`. -/
def charUtf8Bytes (c : Char) : List Nat :=
  let n := c.toNat
  if n < 0x80 then [n]
  else if n < 0x800 then
    [Nat.lor 0xC0 (n / 64), Nat.lor 0x80 (n % 64)]
  else if n < 0x10000 then
    [Nat.lor 0xE0 (n / 4096), Nat.lor 0x80 (n / 64 % 64), Nat.lor 0x80 (n % 64)]
  else
    [Nat.lor 0xF0 (n / 262144), Nat.lor 0x80 (n / 4096 % 64),
     Nat.lor 0x80 (n / 64 % 64), Nat.lor 0x80 (n % 64)]

/-- UTF-8 byte encoding of a string given as its character list, as produced
by Rust `str::bytes()`/`str::as_bytes()`. -/
def strUtf8Bytes (s : List Char) : List Nat := s.flatMap charUtf8Bytes

/-- Rust `str::len()`: the length in UTF-8 bytes. -/
def strByteLen (s : List Char) : Nat := (s.map Char.utf8Size).sum

/-!  The authentication handshake of `MiBand::authenticate` (`src/band.rs`). -/

/-- Outcome of one iteration of the `authenticate` read loop: either the loop
continues (after sending zero or more frames on the write channel), or it
terminates with a new value of the `authenticated` flag and a result. -/
inductive AuthStep where
  | cont (writes : List (List Nat))
  | done (auth : Bool) (result : Except BandError Unit)
deriving DecidableEq, Repr

/-- One iteration of the `authenticate` read loop (`src/band.rs`):
`buf` is the notification buffer after the read and `len` the number of bytes
read. A frame is interpreted only when `len ≥ 3` and `buf[0] = 0x10`;
`[0x01,0x01]` resends the start command, `[0x02,0x01]` answers the 16-byte
challenge at `buf[3..19]` with `[0x03,0x00]` plus the first 16 encrypted
bytes, `[0x03,0x01]` succeeds, `[0x03,0x08]` fails with `InvalidAuthKey`,
and any other code is logged and ignored. -/
def authenticateStep (auth_key buf : List Nat) (len : Nat) : AuthStep :=
  if 3 ≤ len ∧ buf.getD 0 0 = 0x10 then
    match buf.getD 1 0, buf.getD 2 0 with
    | 0x01, 0x01 => .cont [[0x02, 0x00]]
    | 0x02, 0x01 =>
      let value := (buf.drop 3).take 16
      match encrypt_value auth_key value with
      | some encrypted => .cont [[0x03, 0x00] ++ encrypted.take 16]
      | none => .cont []
    | 0x03, 0x01 => .done true (.ok ())
    | 0x03, 0x08 => .done false (.error .invalidAuthKey)
    | _, _ => .cont []
  else .cont []

/-- The `authenticate` read loop run over a list of received frames (each
frame is the list of bytes read; `len` is its length). Returns the frames
sent on the write channel, the final `authenticated` flag, and the result
(`none` when the frame list is exhausted without reaching a terminal frame,
in which case the real loop would still be blocked reading). -/
def authenticateLoop (auth_key : List Nat) (frames : List (List Nat))
    (auth : Bool) : List (List Nat) × Bool × Option (Except BandError Unit) :=
  match frames with
  | [] => ([], auth, none)
  | f :: rest =>
    match authenticateStep auth_key f f.length with
    | .cont ws =>
      let (ws', a', r) := authenticateLoop auth_key rest auth
      (ws ++ ws', a', r)
    | .done a r => ([], a, some r)

/-- `MiBand::authenticate` (`src/band.rs`) over a list of received frames:
requires resolved characteristics, sends the start command `[0x02,0x00]`,
then runs the read loop. Returns all frames written, the final
`authenticated` flag and the result. -/
def authenticate (st : MiBandState) (auth_key : List Nat)
    (frames : List (List Nat)) :
    List (List Nat) × Bool × Option (Except BandError Unit) :=
  match st.chars with
  | some _ =>
    let (ws, a, r) := authenticateLoop auth_key frames st.authenticated
    ([0x02, 0x00] :: ws, a, r)
  | none => ([], st.authenticated, some (.error .notInitialized))

/-!  Chunked transfer (`MiBand::write_chunked`, `src/band.rs`). -/

/-- Structural helper for `chunksOf17`: `fuel` only bounds the recursion
depth and never runs out when `fuel ≥ l.length` (each step consumes a
nonempty chunk). -/
def chunksOf17Fuel : Nat → List Nat → List (List Nat)
  | _, [] => []
  | 0, _ :: _ => []
  | fuel + 1, a :: l => (a :: l).take 17 :: chunksOf17Fuel fuel ((a :: l).drop 17)

/-- Rust `slice::chunks(17)`: split a byte list into consecutive chunks of
17 bytes, the last chunk possibly shorter; the empty list has no chunks. -/
def chunksOf17 (l : List Nat) : List (List Nat) := chunksOf17Fuel l.length l

/-- `MiBand::write_chunked` (`src/band.rs`): split the payload into 17-byte
chunks and frame chunk `i` as `[0x00, flag, i & 0xff] ++ chunk`, where `flag`
is `message_type` OR'd with a first/last position marker. Returns the list
of framed chunks written to the chunked-transfer characteristic. -/
def write_chunked (st : MiBandState) (message_type : Nat) (payload : List Nat) :
    Except BandError (List (List Nat)) :=
  match st.chars with
  | none => .error .notInitialized
  | some _ =>
    let chunks := chunksOf17 payload
    let num_chunks := chunks.length
    .ok (chunks.enum.map fun (i, chunk) =>
      let pos_flag :=
        if i = 0 then
          if i = num_chunks - 1 then Nat.lor 0x40 0x80 else 0
        else
          if i = num_chunks - 1 then 0x80 else 0x40
      [0x00, Nat.lor pos_flag message_type, i % 256] ++ chunk)

/-!  Record reads and writes (`src/band.rs`). -/

/-- `BatteryStatus` from `src/band.rs`. -/
structure BatteryStatus where
  battery_level : Nat
  last_charge : BandDateTime
  charging : Bool
deriving DecidableEq, Repr

/-- `MiBand::get_battery` (`src/band.rs`) applied to the bytes read from the
battery characteristic: level is `value[1]`, charging is `value[2] != 0`, and
`last_charge` is parsed from `value[11..]`. The outer `Option` is `none` when
the Rust indexing (`value[1]`, `value[2]`, `value[11..]`) would panic, i.e.
when fewer than 11 bytes were read. -/
def get_battery (st : MiBandState) (value : List Nat) :
    Option (Except BandError BatteryStatus) :=
  match st.chars with
  | none => some (.error .notInitialized)
  | some _ =>
    if value.length < 11 then none
    else some (match parse_time (value.drop 11) with
      | some t => .ok { battery_level := value.getD 1 0,
                        charging := value.getD 2 0 ≠ 0,
                        last_charge := t }
      | none => .error .invalidTime)

/-- `MiBand::get_band_time` (`src/band.rs`) applied to the bytes read from
the time characteristic. -/
def get_band_time (st : MiBandState) (value : List Nat) :
    Except BandError BandDateTime :=
  match st.chars with
  | none => .error .notInitialized
  | some _ =>
    match parse_time value with
    | some t => .ok t
    | none => .error .invalidTime

/-- Sakamoto's table for the day-of-week computation. -/
def sakamotoT : List Nat := [0, 3, 2, 5, 0, 3, 5, 1, 4, 6, 2, 4]

/-- Day of week (0 = Sunday), as `chrono`'s
`weekday().num_days_from_sunday()` yields for a valid Gregorian date. -/
def weekdayFromSunday (y m d : Nat) : Nat :=
  let y' := if m < 3 then y - 1 else y
  (y' + y' / 4 - y' / 100 + y' / 400 + sakamotoT.getD (m - 1) 0 + d) % 7

/-- `MiBand::set_band_time` (`src/band.rs`): requires authentication, then
writes the 11-byte time record (7-byte timestamp, day of week, three zero
bytes) to the time characteristic with an acknowledged write. Returns the
bytes written. -/
def set_band_time (st : MiBandState) (t : BandDateTime) :
    Except BandError (List Nat) :=
  if !st.authenticated then .error .requiresAuth
  else match st.chars with
  | none => .error .notInitialized
  | some _ =>
    let day_of_week := weekdayFromSunday t.year t.month t.day
    .ok [t.year % 256, t.year / 256 % 256, t.month % 256, t.day % 256,
         t.hour % 256, t.minute % 256, t.second % 256, day_of_week, 0, 0, 0]

/-- `CurrentActivity` from `src/band.rs`. -/
structure CurrentActivity where
  steps : Nat
  calories : Nat
  meters : Nat
deriving DecidableEq, Repr

/-- `MiBand::get_current_activity` (`src/band.rs`) applied to the bytes read
from the steps characteristic: requires authentication; steps at bytes 1-2,
meters at bytes 5-6, calories at bytes 9-10, little-endian. The outer
`Option` is `none` when the Rust indexing would panic (fewer than 11 bytes
read). -/
def get_current_activity (st : MiBandState) (value : List Nat) :
    Option (Except BandError CurrentActivity) :=
  if !st.authenticated then some (.error .requiresAuth)
  else match st.chars with
  | none => some (.error .notInitialized)
  | some _ =>
    if value.length < 11 then none
    else some (.ok
      { steps := Nat.lor (value.getD 1 0) (Nat.shiftLeft (value.getD 2 0) 8)
        meters := Nat.lor (value.getD 5 0) (Nat.shiftLeft (value.getD 6 0) 8)
        calories := Nat.lor (value.getD 9 0) (Nat.shiftLeft (value.getD 10 0) 8) })

/-- `ActivityGoal` from `src/store.rs`. -/
structure ActivityGoal where
  notifications : Bool
  steps : Nat
deriving DecidableEq, Repr

/-- `MiBand::set_activity_goal` (`src/band.rs`): requires authentication,
then issues two writes — the notification toggle to the config
characteristic and the little-endian step target to the settings
characteristic. Returns the two byte strings written. -/
def set_activity_goal (st : MiBandState) (goal : ActivityGoal) :
    Except BandError (List Nat × List Nat) :=
  if !st.authenticated then .error .requiresAuth
  else match st.chars with
  | none => .error .notInitialized
  | some _ =>
    let notifs_enabled_byte := if goal.notifications then 0x01 else 0x00
    .ok ([0x06, 0x06, 0x00, notifs_enabled_byte],
         [0x10, 0x00, 0x00, goal.steps % 256, goal.steps / 256 % 256, 0x00, 0x00])

/-- `BandLock` from `src/store.rs`; the PIN string is kept as its character
list. -/
structure BandLock where
  pin : List Char
  enabled : Bool
deriving DecidableEq, Repr

/-- `MiBand::set_band_lock` (`src/band.rs`): rejects the PIN with
`InvalidLockPin` unless its UTF-8 byte length is 4 and every character is
between '1' and '4'; otherwise writes
`[0x06, 0x21, 0x00, enabledByte] ++ pinBytes ++ [0x00]` to the config
characteristic as an unacknowledged write. Returns the bytes written. -/
def set_band_lock (st : MiBandState) (lock : BandLock) :
    Except BandError (List Nat) :=
  match st.chars with
  | none => .error .notInitialized
  | some _ =>
    if strByteLen lock.pin ≠ 4 ∨ ¬ (lock.pin.all fun i => '1' ≤ i ∧ i ≤ '4') then
      .error .invalidLockPin
    else
      .ok ([0x06, 0x21, 0x00, if lock.enabled then 0x01 else 0x00] ++
           strUtf8Bytes lock.pin ++ [0x00])

/-!  Media info (`MiBand::set_media_info`, `src/band.rs`). -/

/-- `MediaState` from `src/mpris.rs`. -/
inductive MediaState where
  | playing
  | paused
  | stopped
deriving DecidableEq, Repr

/-- `MediaInfo` from `src/mpris.rs`; the track name is kept as its character
list. -/
structure MediaInfo where
  track : Option (List Char)
  volume : Option Nat
  position : Option Nat
  duration : Option Nat
  state : MediaState
deriving DecidableEq, Repr

/-- The payload assembled by `MiBand::set_media_info` (`src/band.rs`) for a
present `MediaInfo`: a header `[flag, playingByte, 0x00]` followed by the
always-present position field, then the optional track name (UTF-8 plus null
terminator), duration and volume fields. Note the source writes the second
byte of each two-byte numeric field as the Rust expression `(v > 8) as u8`.
-/
def set_media_info_payload (media : MediaInfo) : List Nat :=
  let pos := media.position.getD 0
  let all_fields : List (Nat × Option (List Nat)) :=
    [(0x00, some [pos % 256, if 8 < pos then 1 else 0]),
     (0x08, media.track.map fun b => strUtf8Bytes b ++ [0x00]),
     (0x10, media.duration.map fun d => [d % 256, if 8 < d then 1 else 0]),
     (0x40, media.volume.map fun d => [d % 256, if 8 < d then 1 else 0])]
  let present := all_fields.filterMap fun fb => fb.2.map fun b => (fb.1, b)
  let flag := (present.map Prod.fst).foldl (fun acc f => Nat.lor acc f) 0x01
  let buf := (present.map Prod.snd).flatten
  [flag, if media.state = .playing then 1 else 0, 0x00] ++ buf

/-- `MiBand::set_media_info` (`src/band.rs`): sends the assembled payload
(or five zero bytes when no media is present) over the chunked-transfer
channel with message type 0x03. -/
def set_media_info (st : MiBandState) (media : Option MediaInfo) :
    Except BandError (List (List Nat)) :=
  match media with
  | some m => write_chunked st 0x03 (set_media_info_payload m)
  | none => write_chunked st 0x03 (List.replicate 5 0)

/-!  Disconnect (`MiBand::disconnect`, `src/band.rs`). -/

/-- `MiBand::disconnect` (`src/band.rs`): issues the D-Bus disconnect call —
whose outcome is the `transport` argument — and propagates a failure with
`?` before touching any state; only after a successful call is
`authenticated` set to `false`. Returns the call result and the new client
state. -/
def disconnect (st : MiBandState) (transport : Except ZbusError Unit) :
    Except BandError Unit × MiBandState :=
  match transport with
  | .error e => (.error (.dbusError e), st)
  | .ok () => (.ok (), { st with authenticated := false })

/-!  Device-path classification (`BluezSession::is_device_path`,
`src/bluez.rs`). D-Bus object paths contain only characters
`[A-Za-z0-9_/]`, so they are ASCII and byte indexing coincides with
character indexing; paths are modelled as character lists. -/

/-- Rust `str::strip_prefix` on character lists: `some` of the remainder
when the first argument is a prefix of the second. -/
def stripPre : List Char → List Char → Option (List Char)
  | [], s => some s
  | _ :: _, [] => none
  | p :: ps, c :: cs => if p = c then stripPre ps cs else none

/-- `BluezSession::is_device_path` (`src/bluez.rs`): strip the adapter path
from the front of `path`; accept when the remainder is nonempty and contains
no '/' after its first character. -/
def is_device_path (adapter_path path : List Char) : Bool :=
  match stripPre adapter_path path with
  | some relative_path =>
    decide (1 ≤ relative_path.length) && ! (relative_path.drop 1).contains '/'
  | none => false

/-- The specification's classification: `path` is exactly one path segment
below `adapter_path`, i.e. the adapter path followed by '/' and one nonempty
slash-free segment. -/
def oneSegmentBelow (adapter_path path : List Char) : Prop :=
  ∃ seg, seg ≠ [] ∧ '/' ∉ seg ∧ path = adapter_path ++ '/' :: seg

/-!  Supporting lemmas. -/

/-- Sanity check of the AES-128 embedding: the FIPS-197 Appendix C.1
example vector. -/
theorem aes128_fips197_appendix_c1 :
    aes128EncryptBlock
      [0x00,0x01,0x02,0x03,0x04,0x05,0x06,0x07,0x08,0x09,0x0a,0x0b,0x0c,0x0d,0x0e,0x0f]
      [0x00,0x11,0x22,0x33,0x44,0x55,0x66,0x77,0x88,0x99,0xaa,0xbb,0xcc,0xdd,0xee,0xff] =
    [0x69,0xc4,0xe0,0xd8,0x6a,0x7b,0x04,0x30,0xd8,0xcd,0xb7,0x80,0x70,0xb4,0xc5,0x5a] := by
  decide

/-- Sanity check of the AES-128 embedding: the FIPS-197 Appendix B example
vector. -/
theorem aes128_fips197_appendix_b :
    aes128EncryptBlock
      [0x2b,0x7e,0x15,0x16,0x28,0xae,0xd2,0xa6,0xab,0xf7,0x15,0x88,0x09,0xcf,0x4f,0x3c]
      [0x32,0x43,0xf6,0xa8,0x88,0x5a,0x30,0x8d,0x31,0x31,0x98,0xa2,0xe0,0x37,0x07,0x34] =
    [0x39,0x25,0x84,0x1d,0x02,0xdc,0x09,0xfb,0xdc,0x11,0x85,0x97,0x19,0x6a,0x0b,0x32] := by
  decide

/-- An AES block encryption always yields 16 bytes. -/
theorem aes128EncryptBlock_length (key block : List Nat) :
    (aes128EncryptBlock key block).length = 16 := by
  simp [aes128EncryptBlock, addRoundKey]

/-- CBC encryption of a nonempty input yields at least one block. -/
theorem cbcEncryptAes128_length_ge (key iv data : List Nat) (h : data ≠ []) :
    16 ≤ (cbcEncryptAes128 key iv data).length := by
  rw [cbcEncryptAes128]
  simp [h, aes128EncryptBlock, addRoundKey]

/-- The fuel of `chunksOf17Fuel` is irrelevant once it bounds the length. -/
theorem chunksOf17Fuel_congr :
    ∀ (f1 f2 : Nat) (l : List Nat), l.length ≤ f1 → l.length ≤ f2 →
      chunksOf17Fuel f1 l = chunksOf17Fuel f2 l := by
  intro f1
  induction f1 with
  | zero =>
    intro f2 l h1 _
    have : l = [] := List.length_eq_zero.mp (Nat.le_zero.mp h1)
    subst this
    cases f2 <;> rfl
  | succ f1 ih =>
    intro f2 l h1 h2
    cases l with
    | nil => cases f2 <;> rfl
    | cons a t =>
      cases f2 with
      | zero => simp at h2
      | succ f2 =>
        simp only [chunksOf17Fuel]
        congr 1
        apply ih
        · simp at h1 ⊢; omega
        · simp at h2 ⊢; omega

/-- One-step unfolding of `chunksOf17`. -/
theorem chunksOf17_eq (l : List Nat) :
    chunksOf17 l = if l = [] then [] else l.take 17 :: chunksOf17 (l.drop 17) := by
  cases l with
  | nil => rfl
  | cons a t =>
    simp only [chunksOf17, List.length_cons, chunksOf17Fuel, if_neg (List.cons_ne_nil a t)]
    congr 1
    apply chunksOf17Fuel_congr <;> simp

/-- Concatenating the 17-byte chunks gives back the original list. -/
theorem chunksOf17_flatten (l : List Nat) : (chunksOf17 l).flatten = l := by
  by_cases h : l = []
  · subst h; rfl
  · rw [chunksOf17_eq, if_neg h]
    simp [chunksOf17_flatten (l.drop 17)]
termination_by l.length
decreasing_by
  simp only [List.length_drop]
  have := List.length_pos.mpr h
  omega

/-- There are ⌈length / 17⌉ chunks. -/
theorem chunksOf17_length (l : List Nat) :
    (chunksOf17 l).length = (l.length + 16) / 17 := by
  by_cases h : l = []
  · subst h; rfl
  · rw [chunksOf17_eq, if_neg h]
    simp [chunksOf17_length (l.drop 17)]
    have := List.length_pos.mpr h
    omega
termination_by l.length
decreasing_by
  simp only [List.length_drop]
  have := List.length_pos.mpr h
  omega

/-- Every chunk has at most 17 bytes and is nonempty. -/
theorem chunksOf17_mem (l : List Nat) :
    ∀ ch ∈ chunksOf17 l, ch.length ≤ 17 ∧ ch ≠ [] := by
  by_cases h : l = []
  · subst h; simp [chunksOf17, chunksOf17Fuel]
  · rw [chunksOf17_eq, if_neg h]
    intro ch hch
    rcases List.mem_cons.mp hch with h1 | h2
    · subst h1
      have := List.length_pos.mpr h
      refine ⟨by simp, ?_⟩
      simp [← List.length_pos]
      omega
    · exact chunksOf17_mem (l.drop 17) ch h2
termination_by l.length
decreasing_by
  simp only [List.length_drop]
  have := List.length_pos.mpr h
  omega

/-- `stripPre pre s` succeeds with remainder `r` exactly when `s` is `pre`
followed by `r`. -/
theorem stripPre_eq_some_iff (pre s r : List Char) :
    stripPre pre s = some r ↔ s = pre ++ r := by
  induction pre generalizing s with
  | nil => simp [stripPre]
  | cons p ps ih =>
    cases s with
    | nil => simp [stripPre]
    | cons c cs =>
      simp only [stripPre]
      by_cases hpc : p = c
      · subst hpc; simp [ih]
      · rw [if_neg hpc]
        simp
        intro hh
        exact (hpc hh.symm).elim

/-- A character no greater than '4' is a single UTF-8 byte. -/
theorem utf8Size_eq_one_of_le_four (c : Char) (h : c ≤ '4') : c.utf8Size = 1 := by
  have h3 : ('4' : Char) ≤ '\x7F' := by decide
  have h2 : c.val ≤ 0x7F := Char.le_def.mp (Char.le_trans h h3)
  simp [Char.utf8Size, h2]

/-- For a string of characters no greater than '4', the UTF-8 byte length is
the character count. -/
theorem strByteLen_eq_length (s : List Char) (h : ∀ c ∈ s, c ≤ '4') :
    strByteLen s = s.length := by
  induction s with
  | nil => simp [strByteLen]
  | cons c cs ih =>
    have hc := utf8Size_eq_one_of_le_four c (h c (by simp))
    have := ih (fun x hx => h x (by simp [hx]))
    simp [strByteLen] at this ⊢
    omega

/-- `parse_time` only examines the first seven bytes. -/
theorem parse_time_take_seven (l : List Nat) :
    parse_time (l.take 7) = parse_time l := by
  by_cases h : l.length < 7
  · have h7 : (l.take 7).length < 7 := by simp; omega
    simp [parse_time, h7, h]
  · have h7 : (l.take 7).length = 7 := by simp [Nat.min_def]; omega
    have hfields : readTimeFields (l.take 7) = readTimeFields l := by
      simp [readTimeFields, List.getD, List.getElem?_take]
    simp [parse_time, h7, hfields, h]

/-!  Claim theorems. -/

/-- C1: the claim states that every 2-byte numeric field of the
`set_media_info` payload is the little-endian encoding `[v & 0xff, v >> 8]`
of its value. The code instead computes the second byte as the boolean
comparison `(v > 8) as u8` (a slip for `(v >> 8) as u8`; the sibling record
writers `set_band_time` and `set_activity_goal` both use `>> 8`). At
position = 0x1234 the assembled payload carries the position field
`[0x34, 0x01]`, whereas `0x1234 >> 8 = 0x12 ≠ 0x01`. -/
theorem c1_media_payload_high_byte_is_comparison :
    set_media_info_payload ⟨none, none, some 0x1234, none, .stopped⟩ =
      [0x01, 0x00, 0x00, 0x34, 0x01] ∧
    set_media_info ⟨false, some default⟩
        (some ⟨none, none, some 0x1234, none, .stopped⟩) =
      .ok [[0x00, 0xC3, 0x00, 0x01, 0x00, 0x00, 0x34, 0x01]] ∧
    Nat.shiftRight 0x1234 8 = 0x12 ∧ (0x01 : Nat) ≠ 0x12 := by
  refine ⟨by decide, ?_, by decide, by decide⟩
  rw [set_media_info, write_chunked]
  decide

/-- C5, counterexample: when the underlying D-Bus disconnect call fails, the
`?` operator returns before `authenticated` is cleared, so a previously
authenticated client remains authenticated — contradicting the claim that
the flag is false after `disconnect()` returns "whether it succeeds or fails
with a transport error". -/
theorem c5_disconnect_error_keeps_authenticated :
    ¬ ((disconnect ⟨true, some default⟩ (.error ⟨0⟩)).2.authenticated = false) := by
  decide

/-- C5, amended: after a successful `disconnect()` the `authenticated` flag
is false; when the disconnect call fails with a transport error, the error
is propagated and the client state (including the flag) is unchanged; in
both cases the cached characteristic set is unchanged. -/
theorem c5_disconnect_state :
    ∀ (st : MiBandState) (tr : Except ZbusError Unit),
      (disconnect st tr).2.chars = st.chars ∧
      (tr = .ok () →
        (disconnect st tr).1 = .ok () ∧
        (disconnect st tr).2.authenticated = false) ∧
      (∀ e, tr = .error e →
        (disconnect st tr).1 = .error (.dbusError e) ∧
        (disconnect st tr).2 = st) := by
  intro st tr
  rcases tr with e | u
  · simp [disconnect]
  · rcases u
    simp [disconnect]

/-- C5, witness: the amended theorem applied to an authenticated client with
cached characteristics and a successful disconnect call. -/
theorem c5_disconnect_state_witness :
    (disconnect ⟨true, some default⟩ (.ok ())).2.chars = some default ∧
    (disconnect ⟨true, some default⟩ (.ok ())).2.authenticated = false :=
  ⟨(c5_disconnect_state ⟨true, some default⟩ (.ok ())).1,
   ((c5_disconnect_state ⟨true, some default⟩ (.ok ())).2.1 rfl).2⟩

/-- C9: timestamp decoding fails (yields `none`, and `InvalidTime` from
`get_band_time`) on every input of at least 7 bytes whose calendar fields
are invalid — it never clamps them to a valid date (`parse_time` returns the
fields unmodified when it succeeds at all, so failure is the only other
outcome, and the model is total, so no panic) — and on every input shorter
than 7 bytes. -/
theorem c9_parse_time_invalid_fails :
    ∀ (value : List Nat) (a : Bool) (c : BandChars),
      (7 ≤ value.length → validDateTime (readTimeFields value) = false →
        parse_time value = none ∧
        get_band_time ⟨a, some c⟩ value = .error .invalidTime) ∧
      (value.length < 7 →
        parse_time value = none ∧
        get_band_time ⟨a, some c⟩ value = .error .invalidTime) := by
  intro value a c
  constructor
  · intro h7 hbad
    have hp : parse_time value = none := by
      simp [parse_time, hbad]
    exact ⟨hp, by simp [get_band_time, hp]⟩
  · intro h7
    have hp : parse_time value = none := by simp [parse_time, h7]
    exact ⟨hp, by simp [get_band_time, hp]⟩

/-- C9, witness: the theorem applied to a 7-byte input with month 13 and to
a 6-byte input. -/
theorem c9_parse_time_invalid_fails_witness :
    (parse_time [0xE8, 0x07, 13, 1, 0, 0, 0] = none ∧
      get_band_time ⟨false, some default⟩ [0xE8, 0x07, 13, 1, 0, 0, 0] =
        .error .invalidTime) ∧
    (parse_time [0xE8, 0x07, 1, 1, 0, 0] = none ∧
      get_band_time ⟨false, some default⟩ [0xE8, 0x07, 1, 1, 0, 0] =
        .error .invalidTime) :=
  ⟨(c9_parse_time_invalid_fails [0xE8, 0x07, 13, 1, 0, 0, 0] false default).1
      (by decide) (by decide),
   (c9_parse_time_invalid_fails [0xE8, 0x07, 1, 1, 0, 0] false default).2
      (by decide)⟩

/-- C10: `set_band_time`, `get_current_activity` and `set_activity_goal`
test `authenticated` before testing for resolved characteristics, so an
unauthenticated, uninitialized client gets `RequiresAuth` (never
`NotInitialized`), and `NotInitialized` from these operations implies the
client was authenticated. -/
theorem c10_auth_check_precedes_init_check :
    ∀ (t : BandDateTime) (v : List Nat) (g : ActivityGoal),
      (set_band_time ⟨false, none⟩ t = .error .requiresAuth ∧
       get_current_activity ⟨false, none⟩ v = some (.error .requiresAuth) ∧
       set_activity_goal ⟨false, none⟩ g = .error .requiresAuth) ∧
      (∀ (st : MiBandState),
        (set_band_time st t = .error .notInitialized → st.authenticated = true) ∧
        (get_current_activity st v = some (.error .notInitialized) →
          st.authenticated = true) ∧
        (set_activity_goal st g = .error .notInitialized →
          st.authenticated = true)) := by
  intro t v g
  refine ⟨⟨by simp [set_band_time], by simp [get_current_activity],
           by simp [set_activity_goal]⟩, ?_⟩
  rintro ⟨a, ch⟩
  cases a
  · refine ⟨?_, ?_, ?_⟩ <;> intro h <;>
      simp [set_band_time, get_current_activity, set_activity_goal] at h
  · exact ⟨fun _ => rfl, fun _ => rfl, fun _ => rfl⟩

/-- C10, witness: the theorem applied at concrete inputs: the
unauthenticated uninitialized client gets `RequiresAuth` from all three
operations. -/
theorem c10_auth_check_precedes_init_check_witness :
    set_band_time ⟨false, none⟩ ⟨2024, 11, 20, 13, 5, 9⟩ = .error .requiresAuth ∧
    get_current_activity ⟨false, none⟩ [] = some (.error .requiresAuth) ∧
    set_activity_goal ⟨false, none⟩ ⟨true, 10000⟩ = .error .requiresAuth :=
  (c10_auth_check_precedes_init_check ⟨2024, 11, 20, 13, 5, 9⟩ [] ⟨true, 10000⟩).1

/-- C7: `set_band_lock` fails with `InvalidLockPin`, before any write,
exactly when the PIN is not 4 characters each between '1' and '4'
(the code checks the UTF-8 byte length, which coincides with the character
count because in-range characters are single-byte); on a valid PIN it sends
the single write `[0x06, 0x21, 0x00, enabledByte] ++ pinBytes ++ [0x00]` to
the config characteristic. -/
theorem c7_set_band_lock_pin_validation :
    ∀ (a : Bool) (c : BandChars) (lock : BandLock),
      (set_band_lock ⟨a, some c⟩ lock = .error .invalidLockPin ↔
        ¬ (lock.pin.length = 4 ∧ ∀ ch ∈ lock.pin, '1' ≤ ch ∧ ch ≤ '4')) ∧
      ((lock.pin.length = 4 ∧ ∀ ch ∈ lock.pin, '1' ≤ ch ∧ ch ≤ '4') →
        set_band_lock ⟨a, some c⟩ lock =
          .ok ([0x06, 0x21, 0x00, if lock.enabled then 0x01 else 0x00] ++
               strUtf8Bytes lock.pin ++ [0x00])) := by
  intro a c lock
  have hall_iff : (lock.pin.all fun i => '1' ≤ i ∧ i ≤ '4') = true ↔
      ∀ ch ∈ lock.pin, '1' ≤ ch ∧ ch ≤ '4' := by
    simp [List.all_eq_true]
  by_cases hall : ∀ ch ∈ lock.pin, '1' ≤ ch ∧ ch ≤ '4'
  · have hlen : strByteLen lock.pin = lock.pin.length :=
      strByteLen_eq_length _ (fun ch hc => (hall ch hc).2)
    by_cases h4 : lock.pin.length = 4
    · have hcond : ¬ (strByteLen lock.pin ≠ 4 ∨
          ¬ (lock.pin.all fun i => '1' ≤ i ∧ i ≤ '4')) := by
        push_neg
        exact ⟨by omega, hall_iff.mpr hall⟩
      constructor
      · rw [set_band_lock]
        simp only [if_neg hcond]
        simp [h4]
        exact hall
      · intro _
        rw [set_band_lock]
        simp only [if_neg hcond]
    · have hcond : strByteLen lock.pin ≠ 4 ∨
          ¬ (lock.pin.all fun i => '1' ≤ i ∧ i ≤ '4') := by
        left; omega
      constructor
      · rw [set_band_lock]
        simp only [if_pos hcond]
        simp [h4]
      · intro hv
        exact absurd hv.1 h4
  · have hcond : strByteLen lock.pin ≠ 4 ∨
        ¬ (lock.pin.all fun i => '1' ≤ i ∧ i ≤ '4') := by
      right
      simp only [ne_eq, Bool.not_eq_true]
      rw [Bool.eq_false_iff]
      intro hh
      exact hall (hall_iff.mp hh)
    constructor
    · rw [set_band_lock]
      simp only [if_pos hcond]
      simp
      intro h1
      push_neg at hall
      exact hall
    · intro hv
      exact absurd hv.2 hall

/-- C7, witness: the theorem applied to the PIN "1234" with the lock
enabled, and to the rejected PINs "12a4" and "0123". -/
theorem c7_set_band_lock_pin_validation_witness :
    set_band_lock ⟨false, some default⟩ ⟨"1234".toList, true⟩ =
      .ok [0x06, 0x21, 0x00, 0x01, 0x31, 0x32, 0x33, 0x34, 0x00] ∧
    set_band_lock ⟨false, some default⟩ ⟨"12a4".toList, true⟩ =
      .error .invalidLockPin ∧
    set_band_lock ⟨false, some default⟩ ⟨"0123".toList, true⟩ =
      .error .invalidLockPin :=
  ⟨(c7_set_band_lock_pin_validation false default ⟨"1234".toList, true⟩).2
      ⟨by decide, by decide⟩,
   ((c7_set_band_lock_pin_validation false default ⟨"12a4".toList, true⟩).1).mpr
      (by decide),
   ((c7_set_band_lock_pin_validation false default ⟨"0123".toList, true⟩).1).mpr
      (by decide)⟩

/-- C8, counterexample: the claim's concrete battery vector has only seven
ignored bytes between the charging flag and the timestamp, so it is 17 bytes
long, the slice `value[11..]` holds only 6 bytes, and `get_battery` fails
with `InvalidTime` instead of decoding level 85 / charging / 2024-11-20
13:05:09. -/
theorem c8_seventeen_byte_vector_fails :
    get_battery ⟨false, some default⟩
        [0x00, 0x55, 0x01, 0, 0, 0, 0, 0, 0, 0, 0xE8, 0x07, 0x0B, 0x14, 0x0D, 0x05, 0x09] =
      some (.error .invalidTime) ∧
    get_battery ⟨false, some default⟩
        [0x00, 0x55, 0x01, 0, 0, 0, 0, 0, 0, 0, 0xE8, 0x07, 0x0B, 0x14, 0x0D, 0x05, 0x09] ≠
      some (.ok { battery_level := 0x55, charging := true,
                  last_charge := ⟨2024, 11, 20, 13, 5, 9⟩ }) := by
  constructor <;> decide

/-- C8, amended: for every battery value of at least 18 bytes, the level is
byte 1, charging holds exactly when byte 2 is nonzero, and `last_charge` is
the timestamp decoded from bytes 11..18; the concrete vector needs EIGHT
ignored bytes (offsets 3..10) so that the timestamp starts at offset 11, and
then decodes to level 85, charging, 2024-11-20 13:05:09. -/
theorem c8_get_battery_decodes :
    ∀ (a : Bool) (c : BandChars) (value : List Nat), 18 ≤ value.length →
      (∀ t, parse_time ((value.drop 11).take 7) = some t →
        get_battery ⟨a, some c⟩ value =
          some (.ok { battery_level := value.getD 1 0,
                      charging := value.getD 2 0 ≠ 0,
                      last_charge := t })) ∧
      get_battery ⟨a, some c⟩
          [0x00, 0x55, 0x01, 0, 0, 0, 0, 0, 0, 0, 0, 0xE8, 0x07, 0x0B, 0x14, 0x0D, 0x05, 0x09] =
        some (.ok { battery_level := 0x55, charging := true,
                    last_charge := ⟨2024, 11, 20, 13, 5, 9⟩ }) := by
  intro a c value hlen
  constructor
  · intro t ht
    rw [parse_time_take_seven] at ht
    rw [get_battery]
    simp only [if_neg (by omega : ¬ value.length < 11)]
    rw [ht]
  · rfl

/-- C8, witness: the amended theorem applied to the corrected 18-byte
vector. -/
theorem c8_get_battery_decodes_witness :
    get_battery ⟨false, some default⟩
        [0x00, 0x55, 0x01, 0, 0, 0, 0, 0, 0, 0, 0, 0xE8, 0x07, 0x0B, 0x14, 0x0D, 0x05, 0x09] =
      some (.ok { battery_level := 0x55, charging := true,
                  last_charge := ⟨2024, 11, 20, 13, 5, 9⟩ }) :=
  (c8_get_battery_decodes false default
    [0x00, 0x55, 0x01, 0, 0, 0, 0, 0, 0, 0, 0, 0xE8, 0x07, 0x0B, 0x14, 0x0D, 0x05, 0x09]
    (by decide)).2

/-- C3: in the `authenticate` read loop, the frame `[0x10, 0x03, 0x01]`
terminates the loop with `authenticated = true` and success; the frame
`[0x10, 0x03, 0x08]` terminates it with `authenticated = false` and
`InvalidAuthKey`; and any frame shorter than 3 bytes or not starting with
byte 0x10 produces no write, changes no state, and the loop continues with
the remaining frames. -/
theorem c3_auth_terminal_and_ignored_frames :
    ∀ (key : List Nat) (rest : List (List Nat)) (a : Bool) (f : List Nat),
      authenticateLoop key ([0x10, 0x03, 0x01] :: rest) a =
        ([], true, some (.ok ())) ∧
      authenticateLoop key ([0x10, 0x03, 0x08] :: rest) a =
        ([], false, some (.error .invalidAuthKey)) ∧
      (f.length < 3 ∨ f.getD 0 0 ≠ 0x10 →
        authenticateStep key f f.length = .cont [] ∧
        authenticateLoop key (f :: rest) a = authenticateLoop key rest a) := by
  intro key rest a f
  refine ⟨?_, ?_, ?_⟩
  · rfl
  · rfl
  · intro h
    have hcond : ¬ (3 ≤ f.length ∧ f.getD 0 0 = 0x10) := by
      rcases h with h | h
      · intro hc; omega
      · intro hc; exact h hc.2
    have hstep : authenticateStep key f f.length = .cont [] := by
      rw [authenticateStep, if_neg hcond]
    refine ⟨hstep, ?_⟩
    rw [authenticateLoop, hstep]
    simp

/-- C3, witness: the theorem applied with an empty key and remaining-frame
list, and the 1-byte frame `[0x09]` as the ignored frame. -/
theorem c3_auth_terminal_and_ignored_frames_witness :
    authenticateLoop [] ([0x10, 0x03, 0x01] :: []) false =
      ([], true, some (.ok ())) ∧
    authenticateLoop [] ([0x10, 0x03, 0x08] :: []) false =
      ([], false, some (.error .invalidAuthKey)) ∧
    authenticateStep [] [0x09] [0x09].length = .cont [] :=
  ⟨(c3_auth_terminal_and_ignored_frames [] [] false [0x09]).1,
   (c3_auth_terminal_and_ignored_frames [] [] false [0x09]).2.1,
   ((c3_auth_terminal_and_ignored_frames [] [] false [0x09]).2.2
      (Or.inl (by decide))).1⟩

/-- C2: on a challenge frame — first byte 0x10, length at least 19 (here 3
header bytes plus at least 16 bytes `rest`), bytes 1..3 equal
`[0x02, 0x01]` — the `authenticate` loop answers with exactly one frame:
`[0x03, 0x00]` followed by the first 16 bytes of the AES-128-CBC encryption
(zero IV, PKCS#7 padding) of the 16 nonce bytes at offsets 3..19, under the
caller-supplied 16-byte key. -/
theorem c2_auth_challenge_response :
    ∀ (key rest : List Nat), key.length = 16 → 16 ≤ rest.length →
      authenticateStep key (0x10 :: 0x02 :: 0x01 :: rest)
          (0x10 :: 0x02 :: 0x01 :: rest).length =
        .cont [[0x03, 0x00] ++
          (cbcEncryptAes128 key (List.replicate 16 0)
            (pkcs7Pad (rest.take 16))).take 16] := by
  intro key rest hkey hlen
  have hnonce : (rest.take 16).length = 16 := by simp; omega
  have hpadlen : (pkcs7Pad (rest.take 16)).length = 32 := by
    simp [pkcs7Pad, hnonce]
  have hpadne : pkcs7Pad (rest.take 16) ≠ [] := by
    intro hh
    rw [hh] at hpadlen
    simp at hpadlen
  have hct : 16 ≤ (cbcEncryptAes128 key (List.replicate 16 0)
      (pkcs7Pad (rest.take 16))).length :=
    cbcEncryptAes128_length_ge _ _ _ hpadne
  have henc : encrypt_value key (rest.take 16) =
      some (cbcEncryptAes128 key (List.replicate 16 0) (pkcs7Pad (rest.take 16)) ++
            List.replicate 16 0) := by
    rw [encrypt_value]
    simp only [hpadlen]
    norm_num
  have hcond : 3 ≤ (0x10 :: 0x02 :: 0x01 :: rest).length ∧
      (0x10 :: 0x02 :: 0x01 :: rest).getD 0 0 = 0x10 := ⟨by simp, rfl⟩
  rw [authenticateStep, if_pos hcond]
  simp only [List.getD_cons_zero, List.getD_cons_succ, List.drop_succ_cons,
             List.drop_zero]
  rw [henc]
  simp only [List.take_append_of_le_length hct]

/-- C2, witness: the theorem applied to the key `[0..15]` and a challenge
frame carrying the nonce `[0..15]`. -/
theorem c2_auth_challenge_response_witness :
    authenticateStep (List.range 16) (0x10 :: 0x02 :: 0x01 :: List.range 16)
        (0x10 :: 0x02 :: 0x01 :: List.range 16).length =
      .cont [[0x03, 0x00] ++
        (cbcEncryptAes128 (List.range 16) (List.replicate 16 0)
          (pkcs7Pad ((List.range 16).take 16))).take 16] :=
  c2_auth_challenge_response (List.range 16) (List.range 16)
    (by decide) (by decide)

/-- C6, counterexample: the classifier works on string prefixes, not path
segments, so the path "/org/bluez/hci0x" — which is not below the adapter
path "/org/bluez/hci0" at all — is accepted as a device, refuting the
claimed "only if exactly one segment below". -/
theorem c6_string_prefix_accepted :
    is_device_path "/org/bluez/hci0".toList "/org/bluez/hci0x".toList = true ∧
    ¬ oneSegmentBelow "/org/bluez/hci0".toList "/org/bluez/hci0x".toList := by
  constructor
  · decide
  · rintro ⟨seg, hne, _, heq⟩
    have h1 : ("/org/bluez/hci0x".toList).length = 16 := by decide
    have h2 : ("/org/bluez/hci0".toList).length = 15 := by decide
    have h3 := congrArg List.length heq
    rw [h1, List.length_append, h2, List.length_cons] at h3
    have h0 : seg.length = 0 := by omega
    exact hne (List.length_eq_zero.mp h0)

/-- C6, amended: the classifier accepts exactly the paths that extend the
adapter path — as a plain string — by a nonempty remainder with no '/'
after its first character. Every path exactly one segment below the adapter
is accepted (and the adapter path itself, or anything two or more segments
deep, is rejected, as those remainders fail the test), but a path that
extends the adapter path without a '/' separator is also accepted. -/
theorem c6_is_device_path_characterization :
    ∀ (adapter path : List Char),
      (is_device_path adapter path = true ↔
        ∃ rel, path = adapter ++ rel ∧ rel ≠ [] ∧
          (rel.drop 1).contains '/' = false) ∧
      (oneSegmentBelow adapter path → is_device_path adapter path = true) := by
  intro adapter path
  have hmain : is_device_path adapter path = true ↔
      ∃ rel, path = adapter ++ rel ∧ rel ≠ [] ∧
        (rel.drop 1).contains '/' = false := by
    cases hsp : stripPre adapter path with
    | none =>
      simp only [is_device_path, hsp]
      simp
      rintro rel hrel hne
      have hs := (stripPre_eq_some_iff adapter path rel).mpr hrel
      rw [hsp] at hs
      exact absurd hs (by simp)
    | some r =>
      have hr : path = adapter ++ r := (stripPre_eq_some_iff adapter path r).mp hsp
      simp only [is_device_path, hsp]
      simp only [Bool.and_eq_true, decide_eq_true_eq, Bool.not_eq_true']
      constructor
      · rintro ⟨hlen, hcon⟩
        exact ⟨r, hr, by rw [← List.length_pos]; omega, hcon⟩
      · rintro ⟨rel, hrel, hne, hcon⟩
        have hrr : r = rel := List.append_cancel_left (hr.symm.trans hrel)
        subst hrr
        have := List.length_pos.mpr hne
        exact ⟨by omega, hcon⟩
  refine ⟨hmain, ?_⟩
  rintro ⟨seg, hne, hmem, heq⟩
  apply hmain.mpr
  refine ⟨'/' :: seg, heq, by simp, ?_⟩
  simp
  exact hmem

/-- C6, witness: the one-segment path "/a/b" below the adapter path "/a" is
accepted. -/
theorem c6_is_device_path_characterization_witness :
    is_device_path "/a".toList "/a/b".toList = true :=
  (c6_is_device_path_characterization "/a".toList "/a/b".toList).2
    ⟨['b'], by decide, by decide, by decide⟩

/-- C4: `write_chunked` splits a payload into ⌈length/17⌉ chunks of at most
17 bytes; chunk `i` is framed as `[0x00, flag, i mod 256] ++ chunkBytes`
where `flag` is the message type OR'd with 0xC0 when the chunk is both first
and last, 0x00 when first only, 0x80 when last only, and 0x40 in the
middle; and concatenating the chunk bodies in index order reconstructs the
payload. -/
theorem c4_write_chunked_framing :
    ∀ (a : Bool) (c : BandChars) (mt : Nat) (payload : List Nat),
      ∃ fs, write_chunked ⟨a, some c⟩ mt payload = .ok fs ∧
        fs.length = (payload.length + 17 - 1) / 17 ∧
        (fs.map (List.drop 3)).flatten = payload ∧
        ∀ i, ∀ h : i < fs.length,
          ((fs.get ⟨i, h⟩).drop 3).length ≤ 17 ∧
          fs.get ⟨i, h⟩ =
            [0x00,
             Nat.lor mt (if i = 0 ∧ i = fs.length - 1 then 0xC0
                         else if i = 0 then 0x00
                         else if i = fs.length - 1 then 0x80 else 0x40),
             i % 256] ++ (fs.get ⟨i, h⟩).drop 3 := by
  intro a c mt payload
  refine ⟨_, rfl, ?_, ?_, ?_⟩
  · simp [chunksOf17_length]
  · conv_rhs => rw [← chunksOf17_flatten payload]
    congr 1
    rw [List.map_map]
    conv_rhs => rw [← List.enum_map_snd (chunksOf17 payload)]
    apply List.map_congr_left
    rintro ⟨i, ch⟩ _
    simp
  · intro i h
    have hlen2 : i < (chunksOf17 payload).length := by simpa using h
    simp only [List.get_eq_getElem, List.getElem_map, List.getElem_enum,
               List.length_map, List.enum_length]
    have hch : (chunksOf17 payload)[i] ∈ chunksOf17 payload := List.getElem_mem _
    have hle := (chunksOf17_mem payload _ hch).1
    constructor
    · simpa using hle
    · simp only [List.drop_succ_cons, List.drop_zero, List.cons_append,
                 List.nil_append]
      have h192 : Nat.lor 64 128 = 192 := by decide
      by_cases h0 : i = 0
      · subst h0
        by_cases hl : (0 : Nat) = (chunksOf17 payload).length - 1
        · simp [← hl, h192]
          exact Nat.lor_comm _ _
        · simp [hl, h192]
          exact Nat.lor_comm _ _
      · by_cases hl : i = (chunksOf17 payload).length - 1
        · subst hl
          simp [h0, h192]
          exact Nat.lor_comm _ _
        · simp [h0, hl, h192]
          exact Nat.lor_comm _ _

/-- C4, witness: an 18-byte payload yields two frames; the first frame has
flag byte `0x03` (message type, first-chunk marker 0) and index byte 0. -/
theorem c4_write_chunked_framing_witness :
    ∃ fs, write_chunked ⟨false, some default⟩ 0x03 (List.range 18) = .ok fs ∧
      fs.length = 2 ∧
      (fs.map (List.drop 3)).flatten = List.range 18 ∧
      ∃ h : 0 < fs.length,
        fs.get ⟨0, h⟩ = [0x00, 0x03, 0x00] ++ (fs.get ⟨0, h⟩).drop 3 := by
  obtain ⟨fs, h1, h2, h3, h4⟩ :=
    c4_write_chunked_framing false default 0x03 (List.range 18)
  have h2' : fs.length = 2 := by rw [h2]; decide
  have h01 : 0 < fs.length := by omega
  refine ⟨fs, h1, h2', h3, h01, ?_⟩
  have hframe := (h4 0 h01).2
  have hc1 : ¬ (0 = 0 ∧ 0 = fs.length - 1) := by
    rw [h2']
    decide
  rw [if_neg hc1, if_pos rfl] at hframe
  have hlz : Nat.lor 3 0 = 3 := by decide
  simpa [hlz] using hframe

end MiBand4
